import Mathlib

/-!
Verification of the in-memory virtual filesystem of this repository
(LocalHelper/filesystem.h, LocalHelper/filesystem.cpp) against its
natural-language specification.

Modelling conventions:

* The C++ class hierarchy FileBase / File / Folder is a closed sum
  (exactly two concrete subclasses exist), so it is embedded as the
  inductive type FileBase with constructors for File and Folder.
* A Folder owns m_files, an unordered set of owning pointers to its
  children; we embed it as a list of children.  All name-directed
  operations in the source scan the set linearly and act on the first
  child whose name matches, so the list order plays the role of the
  (unspecified) set iteration order.
* The raw pointer Folder::m_parent is written only by the member
  initializer (nullptr) and by Folder::set_parent, which has no call
  site anywhere in the repository; the pointer is therefore nullptr
  for the whole lifetime of every Folder the program can build.  We
  embed it as a field of type Option Empty: none is the nullptr
  default, and the impossibility of a non-null value in any
  constructible state is recorded by using the empty type.
* Exceptions are embedded as an Except over the error conditions of
  the source; dereferencing the null m_parent (get_parent on a folder
  with no parent) and a mismatched static_cast (to_actually_type) are
  undefined behavior in C++ and are mapped to a distinguished
  undefinedBehavior outcome.
* std::filesystem::path values are embedded as their component lists
  (List String), matching the range-for over the path in entry_path;
  parent_path drops the last component and filename is the last one.
* FileSystem::m_active_folder is a pointer into the owned tree; we
  embed it as the list of names leading from the root to the folder
  it designates.
-/

/-- Error conditions surfaced by the source: invalid_argument for an
unknown name, runtime_error for a wrong variant after dynamic_cast,
runtime_error for a duplicate name under the throwing policy, and a
marker for C++ undefined behavior (null m_parent dereference,
mismatched static_cast). -/
inductive Err where
  | notFound
  | wrongVariant
  | duplicateName
  | undefinedBehavior
deriving DecidableEq

/-- Entry model: File (name, content) and Folder (name, m_parent,
m_files).  The parent field has type Option Empty because the only
writer of m_parent, set_parent, is never called in the repository, so
no reachable Folder ever holds a non-null parent pointer. -/
inductive FileBase where
  | file (name content : String)
  | folder (name : String) (parent : Option Empty) (files : List FileBase)

/-- FileBase::name. -/
def FileBase.name : FileBase → String
  | .file n _ => n
  | .folder n _ _ => n

/-- Observation of the parent back-reference of an entry (m_parent of
a Folder; a File has none). -/
def FileBase.parentRef : FileBase → Option Empty
  | .file _ _ => none
  | .folder _ p _ => p

/-- Folder::has_file: linear scan, true on the first name match. -/
def hasFile : List FileBase → String → Bool
  | [], _ => false
  | f :: rest, n => if f.name == n then true else hasFile rest n

/-- Folder::search_file: linear scan returning the first child whose
name matches; throws invalid_argument (notFound) when none does. -/
def Folder.search_file : List FileBase → String → Except Err FileBase
  | [], _ => .error .notFound
  | f :: rest, n => if f.name == n then .ok f else Folder.search_file rest n

/-- Folder::get_file: search_file followed by dynamic_cast to File;
a bad_cast is turned into a runtime_error (wrongVariant). -/
def Folder.get_file (files : List FileBase) (n : String) : Except Err FileBase :=
  match Folder.search_file files n with
  | .error e => .error e
  | .ok (FileBase.file m c) => .ok (FileBase.file m c)
  | .ok (FileBase.folder _ _ _) => .error .wrongVariant

/-- Folder::get_folder: search_file followed by dynamic_cast to
Folder; a bad_cast is turned into a runtime_error (wrongVariant). -/
def Folder.get_folder (files : List FileBase) (n : String) : Except Err FileBase :=
  match Folder.search_file files n with
  | .error e => .error e
  | .ok (FileBase.folder m p fs) => .ok (FileBase.folder m p fs)
  | .ok (FileBase.file _ _) => .error .wrongVariant

/-- FileBase::to_actually_type instantiated at File: an unchecked
static_cast, noexcept, with no runtime test; applying it to a Folder
is undefined behavior, not a reported error. -/
def toActuallyTypeFile : FileBase → Except Err FileBase
  | FileBase.file n c => .ok (FileBase.file n c)
  | FileBase.folder _ _ _ => .error .undefinedBehavior

/-- FileBase::to_actually_type instantiated at Folder: an unchecked
static_cast; applying it to a File is undefined behavior. -/
def toActuallyTypeFolder : FileBase → Except Err FileBase
  | FileBase.folder m p fs => .ok (FileBase.folder m p fs)
  | FileBase.file _ _ => .error .undefinedBehavior

mutual

/-- Copy construction of an entry: File(const File&) copies name and
content; Folder(const Folder&) copies the name, deep-copies m_files
through copy_files_from_folder, and leaves m_parent at its member
default nullptr (the copy constructor neither copies nor re-points
it). -/
def copyEntry : FileBase → FileBase
  | .file n c => .file n c
  | .folder n _ fs => .folder n none (copyEntryList fs)

/-- Folder::copy_files_from_folder: deep copy of a child list,
dispatching on the dynamic type of each element. -/
def copyEntryList : List FileBase → List FileBase
  | [] => []
  | f :: rest => copyEntry f :: copyEntryList rest

end

/-- Overwrite branch of Folder::add: look the existing child up again
with get_file or get_folder according to the static type of the new
entry (wrongVariant when the existing child is the other variant),
then assign through the found reference.  For a File the implicitly
defaulted File::operator= replaces name and content; for a Folder the
user-defined Folder::operator=(const Folder&) only calls
copy_files_from_folder, which appends deep copies of the right-hand
side children to the existing m_files without clearing them, and
leaves the name and m_parent untouched. -/
def overwriteChild : List FileBase → FileBase → Except Err (List FileBase)
  | [], _ => .error .notFound
  | old :: rest, e =>
    if old.name == e.name then
      match e, old with
      | .file n c, .file _ _ => .ok (.file n c :: rest)
      | .file _ _, .folder _ _ _ => .error .wrongVariant
      | .folder _ _ newFs, .folder m p oldFs =>
          .ok (.folder m p (oldFs ++ copyEntryList newFs) :: rest)
      | .folder _ _ _, .file _ _ => .error .wrongVariant
    else
      match overwriteChild rest e with
      | .ok rest2 => .ok (old :: rest2)
      | .error err => .error err

/-- Duplicate-name policy of Folder::add. -/
inductive HowToHandleFilesWithTheSameName where
  | overwrite
  | throw_exception

/-- Folder::add (the copy instantiation: both File and Folder declare
a copy constructor, so insertion always deep-copies the argument; the
cited assignment in the overwrite branch is the const-reference
overload).  When no child carries the new name the deep copy is
inserted into m_files; otherwise the policy decides between the
overwrite assignment and throwing runtime_error (duplicateName). -/
def Folder.add (files : List FileBase) (e : FileBase)
    (policy : HowToHandleFilesWithTheSameName) : Except Err (List FileBase) :=
  if hasFile files e.name = false then
    .ok (files ++ [copyEntry e])
  else
    match policy with
    | .overwrite => overwriteChild files e
    | .throw_exception => .error .duplicateName

/-- Folder::remove: erase the first child whose name matches and
report whether one was found. -/
def Folder.remove : List FileBase → String → Bool × List FileBase
  | [], _ => (false, [])
  | c :: cs, n =>
    if c.name == n then (true, cs)
    else
      let r := Folder.remove cs n
      (r.1, c :: r.2)

mutual

/-- Size measure of an entry (number of nodes in its subtree), used
to justify termination of the breadth-first search. -/
def FileBase.size : FileBase → Nat
  | .file _ _ => 1
  | .folder _ _ fs => 1 + sizeList fs

/-- Total size of a list of entries. -/
def sizeList : List FileBase → Nat
  | [] => 0
  | f :: rest => FileBase.size f + sizeList rest

end

theorem sizeList_append (a b : List FileBase) :
    sizeList (a ++ b) = sizeList a + sizeList b := by
  induction a with
  | nil => simp [sizeList]
  | cons f rest ih => simp [sizeList, ih]; omega

theorem FileBase.size_pos (f : FileBase) : 1 ≤ f.size := by
  cases f <;> simp [FileBase.size]

/-- Body of the range-for in FileSystem::search_file over one front
folder: walk the children, enqueue every child that is a Folder, and
collect every File whose name matches.  Returns the enqueued folders
and the matched files, both in child order. -/
def scanChildren : List FileBase → String → List FileBase × List FileBase
  | [], _ => ([], [])
  | f :: rest, n =>
    let r := scanChildren rest n
    match f with
    | FileBase.folder m p fs => (FileBase.folder m p fs :: r.1, r.2)
    | FileBase.file m c => if m == n then (r.1, FileBase.file m c :: r.2) else r

theorem scanChildren_fst_size_le (cs : List FileBase) (n : String) :
    sizeList (scanChildren cs n).1 ≤ sizeList cs := by
  induction cs with
  | nil => simp [scanChildren, sizeList]
  | cons f rest ih =>
    cases f with
    | folder m p fs =>
        simp [scanChildren, sizeList]
        omega
    | file m c =>
        simp only [scanChildren, sizeList]
        split
        · simp [sizeList]
          have := FileBase.size_pos (FileBase.file m c)
          omega
        · have := FileBase.size_pos (FileBase.file m c)
          omega

theorem bfs_measure_folder (restQ cs : List FileBase) (n m : String) (p : Option Empty) :
    sizeList (restQ ++ (scanChildren cs n).1)
      < sizeList (FileBase.folder m p cs :: restQ) := by
  simp only [sizeList, sizeList_append, FileBase.size]
  have h := scanChildren_fst_size_le cs n
  omega

theorem bfs_measure_file (restQ : List FileBase) (m c : String) :
    sizeList restQ < sizeList (FileBase.file m c :: restQ) := by
  simp only [sizeList, FileBase.size]
  omega

/-- Loop of FileSystem::search_file: a queue of unvisited folders is
processed front first; the children of the front folder are scanned
(subfolders enqueued, matching files collected) and the front is
popped.  Files never legitimately enter the queue; a file front would
simply be popped. -/
def bfsSearch (queue : List FileBase) (n : String) : List FileBase :=
  match queue with
  | [] => []
  | front :: restQ =>
    match front with
    | FileBase.folder _ _ children =>
        let s := scanChildren children n
        s.2 ++ bfsSearch (restQ ++ s.1) n
    | FileBase.file _ _ => bfsSearch restQ n
termination_by sizeList queue
decreasing_by
  · apply bfs_measure_folder
  · apply bfs_measure_file

mutual

/-- Number of File leaves named n in the subtree of an entry (the
entry itself counts only when it is a File; a folder contributes the
files of its subtree). -/
def countFilesNamed (n : String) : FileBase → Nat
  | FileBase.file m _ => if m == n then 1 else 0
  | FileBase.folder _ _ fs => countFilesNamedList n fs

/-- Sum of countFilesNamed over a list of entries. -/
def countFilesNamedList (n : String) : List FileBase → Nat
  | [] => 0
  | f :: rest => countFilesNamed n f + countFilesNamedList n rest

end

mutual

/-- Specification-language count for the original search claim: the
number of entries of either variant (content or container) named n in
the subtree of an entry, the entry itself included.  This definition
follows the words of the specification, not the source, and is used
only to state the claim about search. -/
def countEntriesNamed (n : String) : FileBase → Nat
  | FileBase.file m _ => if m == n then 1 else 0
  | FileBase.folder m _ fs => (if m == n then 1 else 0) + countEntriesNamedList n fs

/-- Sum of countEntriesNamed over a list of entries. -/
def countEntriesNamedList (n : String) : List FileBase → Nat
  | [] => 0
  | f :: rest => countEntriesNamed n f + countEntriesNamedList n rest

end

/-- Count of the files the search loop will still produce from a
queue: folders in the queue contribute the files of their subtree,
while a file in the queue would be popped without being scanned and
contributes nothing. -/
def queueCount (n : String) : List FileBase → Nat
  | [] => 0
  | FileBase.file _ _ :: rest => queueCount n rest
  | FileBase.folder m p fs :: rest =>
      countFilesNamed n (FileBase.folder m p fs) + queueCount n rest

/-- Entry designated by following a list of child names from a
starting entry; used to embed the pointers m_active_folder and the
local variable now of entry_path as the name path from the root to
the folder they address.  Descent uses Folder::get_folder, so a
missing or wrong-variant segment yields none. -/
def folderAt : FileBase → List String → Option FileBase
  | f, [] => some f
  | FileBase.folder _ _ fs, n :: rest =>
    (match Folder.get_folder fs n with
     | .ok child => folderAt child rest
     | .error _ => none)
  | FileBase.file _ _, _ :: _ => none

/-- Replacement of the first child with a given name by the image of
a function; this is how an in-place mutation of the folder object
that search_file finds is reflected in the value model. -/
def updateChild (n : String) (g : FileBase → FileBase) : List FileBase → List FileBase
  | [] => []
  | c :: cs => if c.name == n then g c :: cs else c :: updateChild n g cs

/-- Application of a mutation of the child list at the folder sitting
at a given name path inside a tree, leaving everything else in
place. -/
def updateAt : List String → (List FileBase → List FileBase) → FileBase → FileBase
  | [], g, FileBase.folder m p fs => FileBase.folder m p (g fs)
  | n :: rest, g, FileBase.folder m p fs =>
      FileBase.folder m p (updateChild n (updateAt rest g) fs)
  | _, _, FileBase.file m c => FileBase.file m c

/-- FileSystem::entry_path: walk the path components left to right
from the folder the location designates.  A component "." or an empty
component is skipped; ".." reads the current folder's m_parent
through get_parent, which dereferences the null pointer because no
folder of this program ever has its parent set (undefined behavior);
"/" jumps back to the root; any other component descends into the
child folder of that name via Folder::get_folder.  The result is the
location of the folder reached.  When the location does not designate
a folder of the tree (impossible for the locations the store ever
holds) the model reports notFound. -/
def entry_path (root : FileBase) (loc : List String) : List String → Except Err (List String)
  | [] => .ok loc
  | s :: rest =>
    if s == "." then entry_path root loc rest
    else if s == ".." then
      match folderAt root loc with
      | some (FileBase.folder _ (some e) _) => e.elim
      | _ => .error .undefinedBehavior
    else if s == "/" then entry_path root [] rest
    else if s == "" then entry_path root loc rest
    else
      match folderAt root loc with
      | some (FileBase.folder _ _ fs) =>
        (match Folder.get_folder fs s with
         | .ok _ => entry_path root (loc ++ [s]) rest
         | .error e => .error e)
      | _ => .error .notFound

/-- Root store state: m_root (the owned tree), m_active_path (the
textual working path as its component list) and m_active_folder (a
pointer into the tree, embedded as the name path from the root to the
folder it addresses). -/
structure FileSystem where
  root : FileBase
  activePath : List String
  activeLoc : List String

/-- FileSystem::FileSystem(): the root folder is named "/", the
active folder pointer is the root, and m_active_path is default
constructed, that is, the empty path. -/
def initFileSystem : FileSystem :=
  { root := FileBase.folder "/" none [], activePath := [], activeLoc := [] }

/-- std::filesystem::path::parent_path on a component list: drop the
final component. -/
def parentPath (p : List String) : List String := p.dropLast

/-- std::filesystem::path::filename on a component list: the final
component. -/
def fileName (p : List String) : String := p.getLastD ""

/-- FileSystem::get_folder: resolve the path with entry_path starting
at the active folder; the result is the location of the reached
folder. -/
def FileSystem.get_folder (fs : FileSystem) (p : List String) : Except Err (List String) :=
  entry_path fs.root fs.activeLoc p

/-- FileSystem::change_directory: take the address of the folder
get_folder resolves and then assign the textual path.  When
resolution throws, neither member is assigned. -/
def FileSystem.change_directory (fs : FileSystem) (p : List String) : Except Err FileSystem :=
  match fs.get_folder p with
  | .ok loc => .ok { fs with activeLoc := loc, activePath := p }
  | .error e => .error e

/-- FileSystem::get_working_directory: returns m_active_path. -/
def FileSystem.get_working_directory (fs : FileSystem) : List String := fs.activePath

/-- FileSystem::get_file: resolve the parent path to a folder, then
Folder::get_file with the final component. -/
def FileSystem.get_file (fs : FileSystem) (p : List String) : Except Err FileBase :=
  match fs.get_folder (parentPath p) with
  | .error e => .error e
  | .ok loc =>
    match folderAt fs.root loc with
    | some (FileBase.folder _ _ children) => Folder.get_file children (fileName p)
    | _ => .error .notFound

/-- FileSystem::create: resolve the parent path of the target to a
folder and delegate to Folder::add there.  In the source the call
add(forward(file)) omits the mandatory policy argument of add, which
is ill formed as written; the model passes the policy explicitly.
The fresh-name branch of add never consults the policy, so the
behavior on a fresh name is the same for every choice. -/
def FileSystem.create (fs : FileSystem) (e : FileBase) (p : List String)
    (policy : HowToHandleFilesWithTheSameName) : Except Err FileSystem :=
  match fs.get_folder (parentPath p) with
  | .error err => .error err
  | .ok loc =>
    match folderAt fs.root loc with
    | some (FileBase.folder _ _ children) =>
      (match Folder.add children e policy with
       | .ok children2 => .ok { fs with root := updateAt loc (fun _ => children2) fs.root }
       | .error err => .error err)
    | _ => .error .notFound

/-- FileSystem::remove: resolve the parent path to a folder and
delegate to Folder::remove with the final component; the boolean
reports whether a child was erased. -/
def FileSystem.remove (fs : FileSystem) (p : List String) :
    Except Err (Bool × FileSystem) :=
  match fs.get_folder (parentPath p) with
  | .error e => .error e
  | .ok loc =>
    match folderAt fs.root loc with
    | some (FileBase.folder _ _ children) =>
      (let r := Folder.remove children (fileName p)
       .ok (r.1, { fs with root := updateAt loc (fun _ => r.2) fs.root }))
    | _ => .error .notFound

/-- FileSystem::search_file: breadth-first traversal of the whole
tree starting from a queue holding only the root. -/
def FileSystem.search_file (fs : FileSystem) (n : String) : List FileBase :=
  bfsSearch [fs.root] n

mutual

theorem copyEntry_eq_id : (t : FileBase) → copyEntry t = t
  | FileBase.file _ _ => rfl
  | FileBase.folder n p fs => by
      cases p with
      | none => simp [copyEntry, copyEntryList_eq_id fs]
      | some e => exact e.elim

theorem copyEntryList_eq_id : (ts : List FileBase) → copyEntryList ts = ts
  | [] => rfl
  | t :: rest => by simp [copyEntryList, copyEntry_eq_id t, copyEntryList_eq_id rest]

end

theorem queueCount_append (n : String) (a b : List FileBase) :
    queueCount n (a ++ b) = queueCount n a + queueCount n b := by
  induction a with
  | nil => simp [queueCount]
  | cons f rest ih => cases f <;> (simp [queueCount, ih]; try omega)

theorem scan_count (n : String) (cs : List FileBase) :
    countFilesNamedList n cs
      = (scanChildren cs n).2.length + queueCount n (scanChildren cs n).1 := by
  induction cs with
  | nil => simp [countFilesNamedList, scanChildren, queueCount]
  | cons f rest ih =>
    cases f with
    | file m c =>
      simp only [countFilesNamedList, countFilesNamed, scanChildren]
      by_cases h : m == n
      · simp only [h, if_true]
        simp [List.length_cons]
        omega
      · simp only [h, if_false]
        simp
        omega
    | folder m p fs =>
      simp only [countFilesNamedList, countFilesNamed, scanChildren, queueCount]
      omega

theorem bfsSearch_length (n : String) (q : List FileBase) :
    (bfsSearch q n).length = queueCount n q := by
  have main : ∀ (N : Nat) (q : List FileBase), sizeList q ≤ N →
      (bfsSearch q n).length = queueCount n q := by
    intro N
    induction N with
    | zero =>
      intro q hq
      cases q with
      | nil => simp [bfsSearch, queueCount]
      | cons f r =>
        exfalso
        have h1 := FileBase.size_pos f
        simp only [sizeList] at hq
        omega
    | succ N ih =>
      intro q hq
      match q with
      | [] => simp [bfsSearch, queueCount]
      | FileBase.file m c :: restQ =>
        have hstep : bfsSearch (FileBase.file m c :: restQ) n = bfsSearch restQ n := by
          simp [bfsSearch]
        rw [hstep]
        have hq2 : sizeList restQ ≤ N := by
          simp only [sizeList, FileBase.size] at hq
          omega
        rw [ih restQ hq2]
        simp [queueCount]
      | FileBase.folder m p cs :: restQ =>
        have hstep : bfsSearch (FileBase.folder m p cs :: restQ) n
            = (scanChildren cs n).2 ++ bfsSearch (restQ ++ (scanChildren cs n).1) n := by
          simp [bfsSearch]
        have hq2 : sizeList (restQ ++ (scanChildren cs n).1) ≤ N := by
          have h1 := scanChildren_fst_size_le cs n
          rw [sizeList_append]
          simp only [sizeList, FileBase.size] at hq
          omega
        rw [hstep, List.length_append, ih _ hq2, queueCount_append]
        have hc := scan_count n cs
        simp only [queueCount, countFilesNamed]
        omega
  exact main (sizeList q) q (Nat.le_refl _)

theorem search_file_append (files es : List FileBase) (n : String)
    (h : hasFile files n = false) :
    Folder.search_file (files ++ es) n = Folder.search_file es n := by
  induction files with
  | nil => rfl
  | cons f rest ih =>
    simp only [hasFile] at h
    cases hf : (f.name == n) with
    | true => rw [hf] at h; simp at h
    | false =>
      simp only [hf, if_false] at h
      simp only [List.cons_append, Folder.search_file, hf, if_false]
      exact ih h

theorem updateAt_name (loc : List String) (g : List FileBase → List FileBase)
    (c : FileBase) : (updateAt loc g c).name = c.name := by
  cases c <;> cases loc <;> rfl

theorem search_updateChild (cs : List FileBase) (n : String) (u : FileBase → FileBase)
    (hu : ∀ x, (u x).name = x.name) (c : FileBase)
    (h : Folder.search_file cs n = .ok c) :
    Folder.search_file (updateChild n u cs) n = .ok (u c) := by
  induction cs with
  | nil => simp [Folder.search_file] at h
  | cons f rest ih =>
    cases hf : (f.name == n) with
    | true =>
      simp only [Folder.search_file, hf, if_true] at h
      have hc : f = c := by
        injection h
      subst hc
      have hn : ((u f).name == n) = true := by rw [hu f]; exact hf
      simp [updateChild, hf, Folder.search_file, hn]
    | false =>
      simp only [Folder.search_file, hf, if_false] at h
      simp only [updateChild, hf, if_false, Folder.search_file]
      exact ih h

theorem get_folder_eq_ok (cs : List FileBase) (n : String) (c : FileBase)
    (h : Folder.get_folder cs n = .ok c) :
    Folder.search_file cs n = .ok c ∧
      ∃ m p gs, c = FileBase.folder m p gs := by
  unfold Folder.get_folder at h
  cases hs : Folder.search_file cs n with
  | error e => rw [hs] at h; exact Except.noConfusion h
  | ok f =>
    rw [hs] at h
    cases f with
    | file m c2 => exact Except.noConfusion h
    | folder m p gs =>
      have hc : FileBase.folder m p gs = c := by injection h
      subst hc
      exact ⟨rfl, m, p, gs, rfl⟩

theorem get_folder_of_search (cs : List FileBase) (n m : String) (p : Option Empty)
    (gs : List FileBase)
    (h : Folder.search_file cs n = .ok (FileBase.folder m p gs)) :
    Folder.get_folder cs n = .ok (FileBase.folder m p gs) := by
  unfold Folder.get_folder
  rw [h]

theorem updateAt_folder_shape (rest : List String) (g : List FileBase → List FileBase)
    (m : String) (p : Option Empty) (gs : List FileBase) :
    ∃ gs2, updateAt rest g (FileBase.folder m p gs) = FileBase.folder m p gs2 := by
  cases rest <;> exact ⟨_, rfl⟩

theorem folderAt_updateAt : ∀ (loc : List String) (r : FileBase) (m : String)
    (q : Option Empty) (cs : List FileBase) (g : List FileBase → List FileBase),
    folderAt r loc = some (FileBase.folder m q cs) →
    folderAt (updateAt loc g r) loc = some (FileBase.folder m q (g cs)) := by
  intro loc
  induction loc with
  | nil =>
    intro r m q cs g h
    simp only [folderAt, Option.some.injEq] at h
    subst h
    rfl
  | cons s rest ih =>
    intro r m q cs g h
    cases r with
    | file a b => simp [folderAt] at h
    | folder rm rp rfs =>
      simp only [folderAt] at h
      cases hg : Folder.get_folder rfs s with
      | error e => rw [hg] at h; simp at h
      | ok child =>
        rw [hg] at h
        obtain ⟨hs, m2, p2, gs2, hchild⟩ := get_folder_eq_ok rfs s child hg
        subst hchild
        obtain ⟨gs3, hshape⟩ := updateAt_folder_shape rest g m2 p2 gs2
        have hsu : Folder.search_file (updateChild s (updateAt rest g) rfs) s
            = .ok (updateAt rest g (FileBase.folder m2 p2 gs2)) :=
          search_updateChild rfs s (updateAt rest g)
            (fun x => updateAt_name rest g x) _ hs
        have hgf : Folder.get_folder (updateChild s (updateAt rest g) rfs) s
            = .ok (FileBase.folder m2 p2 gs3) := by
          apply get_folder_of_search
          rw [← hshape]
          exact hsu
        show folderAt (updateAt (s :: rest) g (FileBase.folder rm rp rfs)) (s :: rest)
            = some (FileBase.folder m q (g cs))
        simp only [updateAt, folderAt, hgf]
        rw [← hshape]
        exact ih _ m q cs g h

/-- C1: the specification asserts that every container except the
root has exactly one parent back-reference consistent with the
forward ownership edge.  In the source this is false: Folder::add
never calls set_parent (set_parent has no call site at all), so after
the very first create of a folder under the root the stored child's
m_parent is still nullptr; indeed no entry the program can build ever
carries a parent back-reference. -/
theorem c1_no_parent_backreference :
    (FileSystem.create initFileSystem (FileBase.folder "d" none []) ["d"]
        HowToHandleFilesWithTheSameName.overwrite
      = .ok { root := FileBase.folder "/" none [FileBase.folder "d" none []],
              activePath := [], activeLoc := [] }) ∧
    (∀ t : FileBase, t.parentRef = none) := by
  refine ⟨rfl, ?_⟩
  intro t
  cases t with
  | file _ _ => rfl
  | folder _ p _ =>
    cases p with
    | none => rfl
    | some e => exact e.elim

/-- C2 counterexample: a tree holding exactly one entry named b, a
container, on which search_file returns no reference at all; the
claim as stated promises one reference per matching entry of either
variant. -/
theorem c2_search_counterexample :
    countEntriesNamed "b"
        (FileBase.folder "/" none [FileBase.folder "b" none []]) = 1 ∧
    FileSystem.search_file
        { root := FileBase.folder "/" none [FileBase.folder "b" none []],
          activePath := [], activeLoc := [] } "b" = [] := by
  constructor
  · rfl
  · simp [FileSystem.search_file, bfsSearch, scanChildren]

/-- C2 amended: search_file traverses the whole tree, terminates,
and returns exactly the content entries (File leaves) whose name
matches, each exactly once — k matching files at arbitrary depth
yield exactly k references — while container entries are enqueued
and traversed but never returned, even when their name matches. -/
theorem c2_search_returns_exactly_matching_files (m : String) (p : Option Empty)
    (cs : List FileBase) (ap loc : List String) (n : String) :
    (FileSystem.search_file
        { root := FileBase.folder m p cs, activePath := ap, activeLoc := loc }
        n).length
      = countFilesNamedList n cs := by
  show (bfsSearch [FileBase.folder m p cs] n).length = _
  rw [bfsSearch_length]
  simp [queueCount, countFilesNamed]

/-- C3: overwriting an existing child folder with a new folder of the
same name appends the new folder's children to the existing ones
(Folder::operator=(const Folder&) calls copy_files_from_folder
without clearing m_files), so the old children survive, contrary to
the claim that exactly the new entry's children remain. -/
theorem c3_overwrite_appends_children :
    Folder.add [FileBase.folder "d" none [FileBase.file "x" "1"]]
      (FileBase.folder "d" none [FileBase.file "y" "2"])
      HowToHandleFilesWithTheSameName.overwrite
    = .ok [FileBase.folder "d" none
        [FileBase.file "x" "1", FileBase.file "y" "2"]] := rfl

/-- C4: resolving the path component ".." at the root is not a
documented deterministic result: entry_path calls get_parent on the
root, whose m_parent is the null pointer, and dereferences it —
undefined behavior, not a NoParent error and not a no-op. -/
theorem c4_parent_of_root_is_undefined_behavior :
    FileSystem.get_folder initFileSystem [".."] = .error .undefinedBehavior := rfl

/-- C5: inserting an entry whose name collides with an existing child
under the throwing policy fails with the duplicate-name error; the
exception is thrown before anything is inserted or assigned, so the
child list is left exactly as it was. -/
theorem c5_duplicate_rejected (files : List FileBase) (e : FileBase)
    (h : hasFile files e.name = true) :
    Folder.add files e HowToHandleFilesWithTheSameName.throw_exception
      = .error .duplicateName := by
  simp [Folder.add, h]

theorem c5_witness :
    Folder.add [FileBase.file "a" "1"] (FileBase.file "a" "2")
      HowToHandleFilesWithTheSameName.throw_exception
      = .error .duplicateName :=
  c5_duplicate_rejected [FileBase.file "a" "1"] (FileBase.file "a" "2") rfl

/-- C6 amended behavior of change_directory: on successful resolution
both members are assigned — the current-location reference becomes
the resolved target and the textual working path becomes the
argument path verbatim; on failed resolution the exception escapes
before either assignment, so both members are left unchanged. -/
theorem c6_cd_updates_or_fails (fs : FileSystem) (p : List String) :
    (∀ loc, FileSystem.get_folder fs p = .ok loc →
        FileSystem.change_directory fs p
          = .ok { fs with activeLoc := loc, activePath := p }) ∧
    (∀ e, FileSystem.get_folder fs p = .error e →
        FileSystem.change_directory fs p = .error e) := by
  constructor
  · intro loc h
    unfold FileSystem.change_directory
    rw [h]
  · intro e h
    unfold FileSystem.change_directory
    rw [h]

theorem c6_witness :
    FileSystem.change_directory
      { root := FileBase.folder "/" none [FileBase.folder "a" none []],
        activePath := [], activeLoc := [] } ["a"]
      = .ok { root := FileBase.folder "/" none [FileBase.folder "a" none []],
              activePath := ["a"], activeLoc := ["a"] } :=
  (c6_cd_updates_or_fails
    { root := FileBase.folder "/" none [FileBase.folder "a" none []],
      activePath := [], activeLoc := [] } ["a"]).1 ["a"] rfl

/-- C6 counterexample: create folder a at the root, enter it, create
folder b inside it, enter that; every step succeeds, yet the stored
textual working path is just the last argument "b", which resolves to
an error both from the root and from the current location — it does
not denote the container the current-location reference holds. -/
theorem c6_counterexample :
    (FileSystem.create initFileSystem (FileBase.folder "a" none []) ["a"]
        HowToHandleFilesWithTheSameName.overwrite
      = .ok { root := FileBase.folder "/" none [FileBase.folder "a" none []],
              activePath := [], activeLoc := [] }) ∧
    (FileSystem.change_directory
        { root := FileBase.folder "/" none [FileBase.folder "a" none []],
          activePath := [], activeLoc := [] } ["a"]
      = .ok { root := FileBase.folder "/" none [FileBase.folder "a" none []],
              activePath := ["a"], activeLoc := ["a"] }) ∧
    (FileSystem.create
        { root := FileBase.folder "/" none [FileBase.folder "a" none []],
          activePath := ["a"], activeLoc := ["a"] }
        (FileBase.folder "b" none []) ["b"]
        HowToHandleFilesWithTheSameName.overwrite
      = .ok { root := FileBase.folder "/" none
                [FileBase.folder "a" none [FileBase.folder "b" none []]],
              activePath := ["a"], activeLoc := ["a"] }) ∧
    (FileSystem.change_directory
        { root := FileBase.folder "/" none
            [FileBase.folder "a" none [FileBase.folder "b" none []]],
          activePath := ["a"], activeLoc := ["a"] } ["b"]
      = .ok { root := FileBase.folder "/" none
                [FileBase.folder "a" none [FileBase.folder "b" none []]],
              activePath := ["b"], activeLoc := ["a", "b"] }) ∧
    (FileSystem.get_working_directory
        { root := FileBase.folder "/" none
            [FileBase.folder "a" none [FileBase.folder "b" none []]],
          activePath := ["b"], activeLoc := ["a", "b"] } = ["b"]) ∧
    (entry_path
        (FileBase.folder "/" none
          [FileBase.folder "a" none [FileBase.folder "b" none []]])
        [] ["b"] = .error .notFound) ∧
    (entry_path
        (FileBase.folder "/" none
          [FileBase.folder "a" none [FileBase.folder "b" none []]])
        ["a", "b"] ["b"] = .error .notFound) :=
  ⟨rfl, rfl, rfl, rfl, rfl, rfl, rfl⟩

/-- C7 counterexample: the generic downcast operation of the entry
capability, to_actually_type, applied to an entry of the other
variant is an unchecked static_cast: the outcome is undefined
behavior, not a wrong-variant failure. -/
theorem c7_unchecked_cast_counterexample :
    toActuallyTypeFile (FileBase.folder "d" none [])
      = .error .undefinedBehavior ∧
    Err.undefinedBehavior ≠ Err.wrongVariant := ⟨rfl, by decide⟩

/-- C7 amended: the name-directed lookups get_file and get_folder are
checked downcasts — when the found child is the other variant they
fail with the wrong-variant error — while to_actually_type is an
unchecked cast whose mismatched use is undefined behavior; the code
only invokes it behind an exact typeid test. -/
theorem c7_checked_lookups (files : List FileBase) (n : String) :
    (∀ m p cs, Folder.search_file files n = .ok (FileBase.folder m p cs) →
        Folder.get_file files n = .error .wrongVariant) ∧
    (∀ m c, Folder.search_file files n = .ok (FileBase.file m c) →
        Folder.get_folder files n = .error .wrongVariant) ∧
    (∀ m p cs, toActuallyTypeFile (FileBase.folder m p cs)
        = .error .undefinedBehavior) ∧
    (∀ m c, toActuallyTypeFolder (FileBase.file m c)
        = .error .undefinedBehavior) := by
  refine ⟨?_, ?_, fun m p cs => rfl, fun m c => rfl⟩
  · intro m p cs h
    unfold Folder.get_file
    rw [h]
  · intro m c h
    unfold Folder.get_folder
    rw [h]

theorem c7_witness :
    Folder.get_file [FileBase.folder "d" none []] "d" = .error .wrongVariant :=
  (c7_checked_lookups [FileBase.folder "d" none []] "d").1 "d" none [] rfl

/-- C9: copying a container does deep-copy the whole subtree — the
copy is structurally identical to the original — but no copied
descendant's parent back-reference is re-pointed to its new parent:
the copy constructor leaves every m_parent at the nullptr default
(as in the original tree, where parents are never set either). -/
theorem c9_copy_is_deep_but_parents_null :
    (copyEntry (FileBase.folder "a" none
        [FileBase.folder "b" none [FileBase.file "x" "1"]])
      = FileBase.folder "a" none
        [FileBase.folder "b" none [FileBase.file "x" "1"]]) ∧
    (∀ t : FileBase, copyEntry t = t) ∧
    (∀ t : FileBase, (copyEntry t).parentRef = none) := by
  refine ⟨rfl, copyEntry_eq_id, ?_⟩
  intro t
  cases t with
  | file _ _ => rfl
  | folder _ _ _ => rfl

/-- C10: a fresh store has the root container, named "/", as its
current location, yet its working directory is the empty path rather
than "/"; only change_directory ever assigns the textual path
(create and remove leave it untouched), so it is empty until the
first successful change_directory, which sets it to that call's
argument. -/
theorem c10_initial_working_directory :
    initFileSystem.activeLoc = [] ∧
    FileBase.name initFileSystem.root = "/" ∧
    FileSystem.get_working_directory initFileSystem = [] ∧
    FileSystem.get_working_directory initFileSystem ≠ ["/"] ∧
    (∀ (fs : FileSystem) (e : FileBase) (p : List String)
        (pol : HowToHandleFilesWithTheSameName) (fs2 : FileSystem),
        FileSystem.create fs e p pol = .ok fs2 →
        FileSystem.get_working_directory fs2
          = FileSystem.get_working_directory fs) ∧
    (∀ (fs : FileSystem) (p : List String) (b : Bool) (fs2 : FileSystem),
        FileSystem.remove fs p = .ok (b, fs2) →
        FileSystem.get_working_directory fs2
          = FileSystem.get_working_directory fs) ∧
    (∀ (fs : FileSystem) (p : List String) (fs2 : FileSystem),
        FileSystem.change_directory fs p = .ok fs2 →
        FileSystem.get_working_directory fs2 = p) := by
  refine ⟨rfl, rfl, rfl, by decide, ?_, ?_, ?_⟩
  · intro fs e p pol fs2 h
    unfold FileSystem.create at h
    split at h <;> try exact Except.noConfusion h
    split at h <;> try exact Except.noConfusion h
    split at h <;> try exact Except.noConfusion h
    injection h with h3
    rw [← h3]
    rfl
  · intro fs p b fs2 h
    unfold FileSystem.remove at h
    split at h <;> try exact Except.noConfusion h
    split at h <;> try exact Except.noConfusion h
    simp only [Except.ok.injEq, Prod.mk.injEq] at h
    rw [← h.2]
    rfl
  · intro fs p fs2 h
    unfold FileSystem.change_directory at h
    split at h <;> try exact Except.noConfusion h
    injection h with h3
    rw [← h3]
    rfl

theorem c10_witness :
    FileSystem.get_working_directory
      { root := FileBase.folder "/" none [FileBase.folder "a" none []],
        activePath := ["a"], activeLoc := ["a"] } = ["a"] :=
  (c10_initial_working_directory.2.2.2.2.2.2)
    { root := FileBase.folder "/" none [FileBase.folder "a" none []],
      activePath := [], activeLoc := [] } ["a"]
    { root := FileBase.folder "/" none [FileBase.folder "a" none []],
      activePath := ["a"], activeLoc := ["a"] } rfl

/-- C8: creating a content entry with a fresh name n under the active
folder (the store's create resolving the parent path and delegating
to Folder::add) succeeds, and looking the name up again through the
store yields a content entry whose payload is exactly the one that
was inserted.  The hypotheses say that the active-folder pointer
designates a folder of the tree (always true for the locations the
store holds) and that the name is fresh in it. -/
theorem c8_create_then_get (fs : FileSystem) (m : String) (q : Option Empty)
    (cs : List FileBase) (n pay : String)
    (policy : HowToHandleFilesWithTheSameName)
    (hcoh : folderAt fs.root fs.activeLoc = some (FileBase.folder m q cs))
    (hfresh : hasFile cs n = false) :
    FileSystem.create fs (FileBase.file n pay) [n] policy
      = .ok { fs with
          root := updateAt fs.activeLoc
            (fun _ => cs ++ [FileBase.file n pay]) fs.root } ∧
    FileSystem.get_file
      { fs with
          root := updateAt fs.activeLoc
            (fun _ => cs ++ [FileBase.file n pay]) fs.root } [n]
      = .ok (FileBase.file n pay) := by
  have hadd : Folder.add cs (FileBase.file n pay) policy
      = .ok (cs ++ [FileBase.file n pay]) := by
    unfold Folder.add
    simp [FileBase.name, hfresh, copyEntry]
  have hup : folderAt
      (updateAt fs.activeLoc (fun _ => cs ++ [FileBase.file n pay]) fs.root)
      fs.activeLoc
      = some (FileBase.folder m q (cs ++ [FileBase.file n pay])) :=
    folderAt_updateAt fs.activeLoc fs.root m q cs
      (fun _ => cs ++ [FileBase.file n pay]) hcoh
  have hget : Folder.get_file (cs ++ [FileBase.file n pay]) n
      = .ok (FileBase.file n pay) := by
    unfold Folder.get_file
    rw [search_file_append cs [FileBase.file n pay] n hfresh]
    simp [Folder.search_file, FileBase.name]
  constructor
  · unfold FileSystem.create
    rw [show FileSystem.get_folder fs (parentPath [n]) = .ok fs.activeLoc from rfl]
    simp only [hcoh, hadd]
  · unfold FileSystem.get_file
    rw [show FileSystem.get_folder
        { fs with
            root := updateAt fs.activeLoc
              (fun _ => cs ++ [FileBase.file n pay]) fs.root } (parentPath [n])
      = .ok fs.activeLoc from rfl]
    simp only [hup]
    rw [show fileName [n] = n from rfl]
    exact hget

theorem c8_witness :
    FileSystem.create initFileSystem (FileBase.file "a" "hello") ["a"]
        HowToHandleFilesWithTheSameName.overwrite
      = .ok { root := FileBase.folder "/" none [FileBase.file "a" "hello"],
              activePath := [], activeLoc := [] } ∧
    FileSystem.get_file
      { root := FileBase.folder "/" none [FileBase.file "a" "hello"],
        activePath := [], activeLoc := [] } ["a"]
      = .ok (FileBase.file "a" "hello") :=
  c8_create_then_get initFileSystem "/" none [] "a" "hello"
    HowToHandleFilesWithTheSameName.overwrite rfl rfl
